import Mathlib

/-!
A shallow embedding of `CircularDict` (src/circular_dict/CircularDict.py): an
ordered dictionary with optional `maxlen` / `maxsize_bytes` caps that evicts
its oldest entries on insertion.

The mutable `OrderedDict` state is modelled as a list of key/value pairs
(oldest first) together with the bookkeeping fields.  `sys.getsizeof` as
evaluated at a given call site is modelled by a pair of functions
`cK : K → Nat`, `cV : V → Nat` that are passed to that call, so a size
function that is not stable across calls is modelled by passing different
functions to different calls.  Python exceptions are modelled by returning
the (possibly partially mutated) state together with an `Except` result.
The `pop`/`popitem` overrides exist in two runtime variants (depending on
whether the inherited removal invokes the overridden `__delitem__`); both
variants are embedded (`popA`/`popB`, `popitemA`/`popitemB`).
-/

set_option linter.unusedSectionVars false
set_option linter.unusedVariables false

namespace CircularDictModel

/-- The exceptions raised by the code: `MemoryError` (oversized item),
`KeyError` (missing key / popping an empty dict), `AssertionError`
(a failing `assert`). -/
inductive DErr where
  | memoryError
  | keyError
  | assertionError
deriving DecidableEq

/-- The state of a `CircularDict`: the ordered entries (oldest first) of the
underlying `OrderedDict`, the two optional caps and the running byte count. -/
structure CircularDict (K V : Type) where
  entries : List (K × V)
  maxlen : Option Int
  maxsize_bytes : Option Int
  current_size : Int
deriving DecidableEq

variable {K V : Type} [DecidableEq K]

/-- `sys.getsizeof(key) + sys.getsizeof(value)` for one entry, as an `Int`
(Python integers do not truncate). -/
def cost (cK : K → Nat) (cV : V → Nat) (p : K × V) : Int :=
  (cK p.1 : Int) + (cV p.2 : Int)

/-- Sum of the per-entry costs of a list of entries. -/
def sizeSum (cK : K → Nat) (cV : V → Nat) (es : List (K × V)) : Int :=
  (es.map (cost cK cV)).sum

/-- Dictionary lookup `self[key]` on the entry list. -/
def lookupKey (k : K) : List (K × V) → Option V
  | [] => none
  | p :: ps => if p.1 = k then some p.2 else lookupKey k ps

/-- Removal of the entry for `key` from the entry list, preserving the order
of the other entries (`OrderedDict.__delitem__`'s effect on the order). -/
def removeKey (k : K) : List (K × V) → List (K × V)
  | [] => []
  | p :: ps => if p.1 = k then ps else p :: removeKey k ps

/-- A freshly built state with the given caps, before any insertion. -/
def emptyDict (maxlen maxsize_bytes : Option Int) : CircularDict K V :=
  { entries := [], maxlen := maxlen, maxsize_bytes := maxsize_bytes,
    current_size := 0 }

/-- `CircularDict.__init__`: asserts that at least one cap is supplied and
that `maxsize_bytes` is only used when `sys.getsizeof` is available. -/
def initDict (maxlen maxsize_bytes : Option Int) (getsizeof_available : Bool) :
    Except DErr (CircularDict K V) :=
  if maxlen = none ∧ maxsize_bytes = none then .error .assertionError
  else if getsizeof_available = false ∧ maxsize_bytes ≠ none then
    .error .assertionError
  else .ok (emptyDict maxlen maxsize_bytes)

/-- `CircularDict.is_empty`: reports emptiness, asserting `current_size == 0`
on an empty dict. -/
def is_empty (d : CircularDict K V) : Except DErr Bool :=
  if d.entries.length = 0 then
    if d.current_size = 0 then .ok true else .error .assertionError
  else .ok false

/-- The `assert self.current_size <= self.maxsize_bytes` check of `is_full`. -/
def sizeAssertOk (d : CircularDict K V) : Bool :=
  match d.maxsize_bytes with
  | some m => d.current_size ≤ m
  | none => true

/-- The `assert len(self) <= self.maxlen` check of `is_full`. -/
def lenAssertOk (d : CircularDict K V) : Bool :=
  match d.maxlen with
  | some ml => (d.entries.length : Int) ≤ ml
  | none => true

/-- `self.maxlen is not None and len(self) == self.maxlen`. -/
def lenFullCheck (d : CircularDict K V) : Bool :=
  match d.maxlen with
  | some ml => (d.entries.length : Int) == ml
  | none => false

/-- `self.maxsize_bytes is not None and self.current_size == self.maxsize_bytes`. -/
def sizeFullCheck (d : CircularDict K V) : Bool :=
  match d.maxsize_bytes with
  | some m => d.current_size == m
  | none => false

/-- `CircularDict.is_full`: runs the two invariant asserts, then reports
whether either cap is exactly reached. -/
def is_full (d : CircularDict K V) : Except DErr Bool :=
  if sizeAssertOk d = true then
    if lenAssertOk d = true then .ok (lenFullCheck d || sizeFullCheck d)
    else .error .assertionError
  else .error .assertionError

/-- `CircularDict.clear`: removes all entries and resets `current_size`. -/
def clear (d : CircularDict K V) : CircularDict K V :=
  { d with entries := [], current_size := 0 }

/-- `CircularDict.__delitem__` with `cK`/`cV` the `sys.getsizeof` of this
call: if the key is present, decrement `current_size` by the freshly
computed `getsizeof(key) + getsizeof(value)` and remove the entry; a no-op
otherwise. -/
def delItem (cK : K → Nat) (cV : V → Nat) (d : CircularDict K V) (k : K) :
    CircularDict K V :=
  match lookupKey k d.entries with
  | none => d
  | some v =>
    { d with entries := removeKey k d.entries,
             current_size := d.current_size - ((cK k : Int) + (cV v : Int)) }

/-- `OrderedDict.popitem(last)` on the entry list: the removed entry together
with the remaining entries, or `none` on an empty dict (a `KeyError` in
Python). -/
def superPopitem (last : Bool) (es : List (K × V)) :
    Option ((K × V) × List (K × V)) :=
  match es with
  | [] => none
  | h :: t =>
    if last then some ((h :: t).getLast (List.cons_ne_nil h t), (h :: t).dropLast)
    else some (h, t)

/-- `CircularDict.popitem` in the runtime variant in which the inherited
`OrderedDict.popitem` does NOT invoke the overridden `__delitem__`
(Python 3.11+): `current_size` is unchanged by the inherited call, so the
`self.current_size == prev_size` check succeeds and the manual decrement by
the freshly computed element size runs. -/
def popitemB (cK : K → Nat) (cV : V → Nat) (d : CircularDict K V)
    (last : Bool) : CircularDict K V × Except DErr (K × V) :=
  let prev := d.current_size
  match superPopitem last d.entries with
  | none => (d, .error .keyError)
  | some ((k, v), es) =>
    let element_size : Int := (cK k : Int) + (cV v : Int)
    ({ d with entries := es, current_size := prev - element_size },
     .ok (k, v))

/-- `CircularDict.popitem` in the runtime variant in which the inherited
`OrderedDict.popitem` DOES invoke the overridden `__delitem__`, which already
decremented `current_size` by the element size; the override then checks
`self.current_size == prev_size` (runs the manual decrement when it holds)
and otherwise asserts `self.current_size == prev_size - element_size`. -/
def popitemA (cK : K → Nat) (cV : V → Nat) (d : CircularDict K V)
    (last : Bool) : CircularDict K V × Except DErr (K × V) :=
  let prev := d.current_size
  match superPopitem last d.entries with
  | none => (d, .error .keyError)
  | some ((k, v), es) =>
    let element_size : Int := (cK k : Int) + (cV v : Int)
    let cs1 := prev - element_size
    if cs1 = prev then
      ({ d with entries := es, current_size := cs1 - element_size },
       .ok (k, v))
    else if cs1 = prev - element_size then
      ({ d with entries := es, current_size := cs1 }, .ok (k, v))
    else ({ d with entries := es, current_size := cs1 },
          .error .assertionError)

/-- `CircularDict.pop` in the runtime variant in which the inherited
`OrderedDict.pop` does NOT invoke the overridden `__delitem__`:
`current_size` is unchanged by the inherited removal, so the manual
decrement by the freshly computed element size runs.  An absent key returns
the default, or raises `KeyError` when the default is `None`. -/
def popB (cK : K → Nat) (cV : V → Nat) (d : CircularDict K V) (k : K)
    (default : Option V) : CircularDict K V × Except DErr V :=
  match lookupKey k d.entries with
  | none =>
    match default with
    | none => (d, .error .keyError)
    | some dv => (d, .ok dv)
  | some v =>
    let prev := d.current_size
    let element_size : Int := (cK k : Int) + (cV v : Int)
    ({ d with entries := removeKey k d.entries,
              current_size := prev - element_size }, .ok v)

/-- `CircularDict.pop` in the runtime variant in which the inherited
`OrderedDict.pop` DOES invoke the overridden `__delitem__` (so
`current_size` was already decremented); the override then checks
`self.current_size == prev_size` and otherwise asserts
`self.current_size == prev_size - element_size`. -/
def popA (cK : K → Nat) (cV : V → Nat) (d : CircularDict K V) (k : K)
    (default : Option V) : CircularDict K V × Except DErr V :=
  match lookupKey k d.entries with
  | none =>
    match default with
    | none => (d, .error .keyError)
    | some dv => (d, .ok dv)
  | some v =>
    let prev := d.current_size
    let d1 := delItem cK cV d k
    let element_size : Int := (cK k : Int) + (cV v : Int)
    if d1.current_size = prev then
      ({ d1 with current_size := d1.current_size - element_size }, .ok v)
    else if d1.current_size = prev - element_size then (d1, .ok v)
    else (d1, .error .assertionError)

/-- The byte-cap eviction loop of `__setitem__`:
`while self.maxsize_bytes is not None and self.current_size + item_size >
self.maxsize_bytes: self.popitem(last=False)`.  Each iteration removes the
oldest entry and decrements the running size by that entry's freshly
computed cost (the net effect of the overridden `popitem`); popping an empty
dict raises `KeyError`, leaving the partial state. -/
def evictBytesLoop (cK : K → Nat) (cV : V → Nat) (m item_size : Int) :
    List (K × V) → Int → (List (K × V) × Int) × Except DErr Unit
  | [], cs =>
    if m < cs + item_size then (([], cs), .error .keyError)
    else (([], cs), .ok ())
  | h :: t, cs =>
    if m < cs + item_size then
      evictBytesLoop cK cV m item_size t (cs - cost cK cV h)
    else ((h :: t, cs), .ok ())

/-- The count-cap eviction loop of `__setitem__`:
`while self.maxlen is not None and len(self) >= self.maxlen:
assert len(self) == self.maxlen; self.popitem(last=False)`.  When the count
strictly exceeds the cap the assert fails; popping an empty dict (count cap
zero) raises `KeyError`. -/
def evictLenLoop (cK : K → Nat) (cV : V → Nat) (ml : Int) :
    List (K × V) → Int → (List (K × V) × Int) × Except DErr Unit
  | [], cs =>
    if ml ≤ (0 : Int) then
      if (0 : Int) = ml then (([], cs), .error .keyError)
      else (([], cs), .error .assertionError)
    else (([], cs), .ok ())
  | h :: t, cs =>
    if ml ≤ ((h :: t).length : Int) then
      if ((h :: t).length : Int) = ml then
        evictLenLoop cK cV ml t (cs - cost cK cV h)
      else ((h :: t, cs), .error .assertionError)
    else ((h :: t, cs), .ok ())

/-- The `while self.maxsize_bytes is not None and ...` guard of the byte-cap
eviction loop: the loop body runs only when `maxsize_bytes` is set. -/
def bytesPhase (cK : K → Nat) (cV : V → Nat) (mso : Option Int)
    (item_size : Int) (es : List (K × V)) (cs : Int) :
    (List (K × V) × Int) × Except DErr Unit :=
  match mso with
  | some m => evictBytesLoop cK cV m item_size es cs
  | none => ((es, cs), .ok ())

/-- The `while self.maxlen is not None and ...` guard of the count-cap
eviction loop: the loop body runs only when `maxlen` is set. -/
def lenPhase (cK : K → Nat) (cV : V → Nat) (mlo : Option Int)
    (es : List (K × V)) (cs : Int) :
    (List (K × V) × Int) × Except DErr Unit :=
  match mlo with
  | some ml => evictLenLoop cK cV ml es cs
  | none => ((es, cs), .ok ())

/-- Continuation after the count-cap eviction loop: on success append the new
entry at the newest position and add `item_size` to `current_size`; a loop
exception propagates, leaving the partially mutated state. -/
def afterLen (d1 : CircularDict K V) (k : K) (v : V) (item_size : Int)
    (r : (List (K × V) × Int) × Except DErr Unit) :
    CircularDict K V × Except DErr Unit :=
  match r with
  | ((es3, cs3), .error e) =>
    ({ d1 with entries := es3, current_size := cs3 }, .error e)
  | ((es3, cs3), .ok ()) =>
    ({ d1 with entries := es3 ++ [(k, v)], current_size := cs3 + item_size },
     .ok ())

/-- Continuation after the byte-cap eviction loop: on success run the
count-cap loop; a loop exception propagates, leaving the partially mutated
state. -/
def afterBytes (cK : K → Nat) (cV : V → Nat) (d1 : CircularDict K V) (k : K)
    (v : V) (item_size : Int)
    (r : (List (K × V) × Int) × Except DErr Unit) :
    CircularDict K V × Except DErr Unit :=
  match r with
  | ((es2, cs2), .error e) =>
    ({ d1 with entries := es2, current_size := cs2 }, .error e)
  | ((es2, cs2), .ok ()) =>
    afterLen d1 k v item_size (lenPhase cK cV d1.maxlen es2 cs2)

/-- The locked body of `__setitem__` (after the oversize check): delete a
pre-existing entry for the key, run the byte-cap and count-cap eviction
loops, then append the new entry and add `item_size`. -/
def setItemLocked (cK : K → Nat) (cV : V → Nat) (d : CircularDict K V)
    (k : K) (v : V) (item_size : Int) :
    CircularDict K V × Except DErr Unit :=
  let d1 := delItem cK cV d k
  afterBytes cK cV d1 k v item_size
    (bytesPhase cK cV d1.maxsize_bytes item_size d1.entries d1.current_size)

/-- The oversize check of `__setitem__`:
`self.maxsize_bytes is not None and item_size > self.maxsize_bytes`. -/
def oversizeCheck (mso : Option Int) (item_size : Int) : Bool :=
  match mso with
  | some m => m < item_size
  | none => false

/-- `CircularDict.__setitem__` with `cK`/`cV` the `sys.getsizeof` of this
call: computes `item_size`, raises `MemoryError` (with the state untouched)
when the item alone exceeds `maxsize_bytes`, and otherwise runs the locked
body. -/
def setItem (cK : K → Nat) (cV : V → Nat) (d : CircularDict K V) (k : K)
    (v : V) : CircularDict K V × Except DErr Unit :=
  let item_size : Int := (cK k : Int) + (cV v : Int)
  if oversizeCheck d.maxsize_bytes item_size then (d, .error .memoryError)
  else setItemLocked cK cV d k v item_size

/-- A public mutating operation, for stating whole-run invariants. -/
inductive Op (K V : Type) where
  | set (k : K) (v : V)
  | del (k : K)
  | pop (k : K) (default : Option V)
  | popitem (last : Bool)
  | clear
deriving DecidableEq

/-- Run one public operation (using the no-hook `pop`/`popitem` variants),
keeping the state the operation leaves behind whether or not it raised. -/
def step (cK : K → Nat) (cV : V → Nat) (d : CircularDict K V) :
    Op K V → CircularDict K V
  | .set k v => (setItem cK cV d k v).1
  | .del k => delItem cK cV d k
  | .pop k dflt => (popB cK cV d k dflt).1
  | .popitem last => (popitemB cK cV d last).1
  | .clear => clear d

/-- Run a list of public operations with a fixed size function. -/
def runOps (cK : K → Nat) (cV : V → Nat) (d : CircularDict K V)
    (ops : List (Op K V)) : CircularDict K V :=
  ops.foldl (step cK cV) d

/-- Insert a list of key/value pairs in order (`d[k] = v` for each pair). -/
def insertAll (cK : K → Nat) (cV : V → Nat) (d : CircularDict K V)
    (ps : List (K × V)) : CircularDict K V :=
  ps.foldl (fun s p => (setItem cK cV s p.1 p.2).1) d

/-- The accounting invariant: `current_size` is the sum of the entry costs
computed with the (fixed) size function. -/
def Accounted (cK : K → Nat) (cV : V → Nat) (d : CircularDict K V) : Prop :=
  d.current_size = sizeSum cK cV d.entries

/-! ### Concrete states and operation lists used by the witnesses -/

/-- Keys 0..7 paired with themselves, for the count-cap scenario. -/
def psW : List (Nat × Nat) :=
  [(0, 0), (1, 1), (2, 2), (3, 3), (4, 4), (5, 5), (6, 6), (7, 7)]

/-- A mixed list of public operations for the run-invariant witness. -/
def opsW : List (Op Nat Nat) :=
  [.set 1 2, .set 2 3, .set 3 4, .del 2, .pop 3 (some 0), .popitem false,
   .set 5 4, .clear, .set 7 3]

/-- One resident entry `(1, 7)`, count cap 5, accounted size 9 (id costs:
key 1 + value 7 + key cost 1 = 8; the state is deliberately arbitrary). -/
def exDict1 : CircularDict Nat Nat := ⟨[(1, 7)], some 5, none, 9⟩

/-- One resident entry, byte cap 6, for the oversize-rejection witness. -/
def exDict4 : CircularDict Nat Nat := ⟨[(1, 9)], none, some 6, 10⟩

/-- Two resident entries with `maxlen = 1`: the count strictly exceeds the
cap. -/
def exDict6a : CircularDict Nat Nat := ⟨[(0, 0), (1, 1)], some 1, none, 2⟩

/-- One resident entry exactly at `maxlen = 1`. -/
def exDict6b : CircularDict Nat Nat := ⟨[(0, 0)], some 1, none, 0⟩

/-- Two entries of cost 4 each (key cost 0, value cost = value) under byte
cap 10. -/
def exDict7 : CircularDict Nat Nat := ⟨[(0, 4), (1, 4)], none, some 10, 8⟩

/-- Two entries with id costs 4 and 6 under large caps, for the update
witness. -/
def exDict7w : CircularDict Nat Nat := ⟨[(1, 3), (2, 4)], some 5, some 100, 10⟩

/-- One resident entry `(2, 9)` for the `pop` witness. -/
def exDict9 : CircularDict Nat Nat := ⟨[(2, 9)], some 5, none, 11⟩

/-- One resident entry `(3, 4)` for the pop-variant witness. -/
def exDict10 : CircularDict Nat Nat := ⟨[(3, 4)], some 5, none, 7⟩

/-! ## Basic lemmas about the entry-list operations -/

theorem cost_nonneg (cK : K → Nat) (cV : V → Nat) (p : K × V) :
    0 ≤ cost cK cV p := by
  simp only [cost]
  omega

theorem sizeSum_nil (cK : K → Nat) (cV : V → Nat) :
    sizeSum cK cV ([] : List (K × V)) = 0 := rfl

theorem sizeSum_cons (cK : K → Nat) (cV : V → Nat) (p : K × V)
    (es : List (K × V)) :
    sizeSum cK cV (p :: es) = cost cK cV p + sizeSum cK cV es := by
  simp [sizeSum]

theorem sizeSum_append (cK : K → Nat) (cV : V → Nat)
    (l1 l2 : List (K × V)) :
    sizeSum cK cV (l1 ++ l2) = sizeSum cK cV l1 + sizeSum cK cV l2 := by
  simp [sizeSum]

theorem sizeSum_nonneg (cK : K → Nat) (cV : V → Nat) (es : List (K × V)) :
    0 ≤ sizeSum cK cV es := by
  induction es with
  | nil => simp [sizeSum_nil]
  | cons p ps ih =>
    rw [sizeSum_cons]
    have := cost_nonneg cK cV p
    omega

theorem lookupKey_eq_none_iff (k : K) (es : List (K × V)) :
    lookupKey k es = none ↔ ∀ p ∈ es, p.1 ≠ k := by
  induction es with
  | nil => simp [lookupKey]
  | cons p ps ih =>
    by_cases h : p.1 = k
    · simp [lookupKey, h]
    · simp [lookupKey, h, ih]

theorem removeKey_of_lookup_none (k : K) (es : List (K × V))
    (h : lookupKey k es = none) : removeKey k es = es := by
  induction es with
  | nil => rfl
  | cons p ps ih =>
    by_cases hp : p.1 = k
    · simp [lookupKey, hp] at h
    · simp only [lookupKey, hp, if_false, ite_false] at h
      simp [removeKey, hp, ih h]

theorem sizeSum_removeKey (cK : K → Nat) (cV : V → Nat) (k : K) (v : V)
    (es : List (K × V)) (h : lookupKey k es = some v) :
    sizeSum cK cV (removeKey k es) =
      sizeSum cK cV es - ((cK k : Int) + (cV v : Int)) := by
  induction es with
  | nil => simp [lookupKey] at h
  | cons p ps ih =>
    by_cases hp : p.1 = k
    · rw [lookupKey, if_pos hp] at h
      injection h with h
      rw [removeKey, if_pos hp, sizeSum_cons]
      have hc : cost cK cV p = (cK k : Int) + (cV v : Int) := by
        rw [cost, hp, h]
      omega
    · rw [lookupKey, if_neg hp] at h
      rw [removeKey, if_neg hp, sizeSum_cons, sizeSum_cons, ih h]
      omega

theorem length_removeKey (k : K) (v : V) (es : List (K × V))
    (h : lookupKey k es = some v) :
    (removeKey k es).length + 1 = es.length := by
  induction es with
  | nil => simp [lookupKey] at h
  | cons p ps ih =>
    by_cases hp : p.1 = k
    · simp [removeKey, hp]
    · rw [lookupKey, if_neg hp] at h
      simp [removeKey, hp, ← ih h]

theorem removeKey_subset (k : K) (es : List (K × V)) (p : K × V)
    (hp : p ∈ removeKey k es) : p ∈ es := by
  induction es with
  | nil => simp [removeKey] at hp
  | cons q qs ih =>
    by_cases hq : q.1 = k
    · rw [removeKey, if_pos hq] at hp
      exact List.mem_cons_of_mem q hp
    · rw [removeKey, if_neg hq] at hp
      rcases List.mem_cons.mp hp with hh | ht
      · exact hh ▸ List.mem_cons_self q qs
      · exact List.mem_cons_of_mem q (ih ht)

theorem lookupKey_removeKey_of_none (k k2 : K) (es : List (K × V))
    (h : lookupKey k2 es = none) :
    lookupKey k2 (removeKey k es) = none := by
  rw [lookupKey_eq_none_iff] at h ⊢
  exact fun p hp => h p (removeKey_subset k es p hp)

/-! ## Lemmas about `delItem` and `superPopitem` -/

theorem delItem_of_lookup_none (cK : K → Nat) (cV : V → Nat)
    (d : CircularDict K V) (k : K) (h : lookupKey k d.entries = none) :
    delItem cK cV d k = d := by
  simp [delItem, h]

theorem delItem_of_lookup_some (cK : K → Nat) (cV : V → Nat)
    (d : CircularDict K V) (k : K) (v : V)
    (h : lookupKey k d.entries = some v) :
    delItem cK cV d k =
      { d with entries := removeKey k d.entries,
               current_size := d.current_size - ((cK k : Int) + (cV v : Int)) } := by
  simp [delItem, h]

theorem delItem_maxlen (cK : K → Nat) (cV : V → Nat) (d : CircularDict K V)
    (k : K) : (delItem cK cV d k).maxlen = d.maxlen := by
  unfold delItem
  split <;> rfl

theorem delItem_maxsize_bytes (cK : K → Nat) (cV : V → Nat)
    (d : CircularDict K V) (k : K) :
    (delItem cK cV d k).maxsize_bytes = d.maxsize_bytes := by
  unfold delItem
  split <;> rfl

theorem delItem_sum (cK : K → Nat) (cV : V → Nat) (d : CircularDict K V)
    (k : K) (hinv : d.current_size = sizeSum cK cV d.entries) :
    (delItem cK cV d k).current_size = sizeSum cK cV (delItem cK cV d k).entries := by
  unfold delItem
  cases h : lookupKey k d.entries with
  | none => exact hinv
  | some v => simpa [sizeSum_removeKey cK cV k v d.entries h] using by omega

theorem delItem_cs_le (cK : K → Nat) (cV : V → Nat) (d : CircularDict K V)
    (k : K) : (delItem cK cV d k).current_size ≤ d.current_size := by
  unfold delItem
  cases h : lookupKey k d.entries with
  | none => exact le_refl _
  | some v =>
    have : (0 : Int) ≤ (cK k : Int) + (cV v : Int) := by omega
    simpa using by omega

theorem sizeSum_eq_dropLast_add (cK : K → Nat) (cV : V → Nat)
    (es : List (K × V)) (h : es ≠ []) :
    sizeSum cK cV es =
      sizeSum cK cV es.dropLast + cost cK cV (es.getLast h) := by
  conv_lhs => rw [← List.dropLast_append_getLast h]
  rw [sizeSum_append, sizeSum_cons, sizeSum_nil]
  ring

theorem superPopitem_eq_none_iff (last : Bool) (es : List (K × V)) :
    superPopitem last es = none ↔ es = [] := by
  cases es with
  | nil => simp [superPopitem]
  | cons h t =>
    cases last <;> simp [superPopitem]

theorem superPopitem_spec (cK : K → Nat) (cV : V → Nat) (last : Bool)
    (es es2 : List (K × V)) (k : K) (v : V)
    (h : superPopitem last es = some ((k, v), es2)) :
    sizeSum cK cV es2 = sizeSum cK cV es - cost cK cV (k, v) ∧
      es2.length + 1 = es.length := by
  cases es with
  | nil => simp [superPopitem] at h
  | cons p t =>
    cases last with
    | false =>
      have he : superPopitem false (p :: t) = some (p, t) := rfl
      rw [he] at h
      injection h with h2
      injection h2 with hk hes
      subst hes
      subst hk
      rw [sizeSum_cons]
      exact ⟨by omega, by simp⟩
    | true =>
      have he : superPopitem true (p :: t) =
          some ((p :: t).getLast (List.cons_ne_nil p t), (p :: t).dropLast) := rfl
      rw [he] at h
      injection h with h2
      injection h2 with hkv hes
      subst hes
      constructor
      · have := sizeSum_eq_dropLast_add cK cV (p :: t) (List.cons_ne_nil p t)
        rw [hkv] at this
        omega
      · simp [List.length_dropLast]

/-! ## Lemmas about the two eviction loops of `__setitem__` -/

theorem evictBytesLoop_cons (cK : K → Nat) (cV : V → Nat) (m item : Int)
    (p : K × V) (ps : List (K × V)) (cs : Int) :
    evictBytesLoop cK cV m item (p :: ps) cs =
      if m < cs + item then
        evictBytesLoop cK cV m item ps (cs - cost cK cV p)
      else ((p :: ps, cs), .ok ()) := rfl

theorem evictBytesLoop_noop (cK : K → Nat) (cV : V → Nat) (m item : Int)
    (es : List (K × V)) (cs : Int) (h : ¬ m < cs + item) :
    evictBytesLoop cK cV m item es cs = ((es, cs), .ok ()) := by
  cases es <;> simp [evictBytesLoop, h]

theorem evictBytesLoop_sum (cK : K → Nat) (cV : V → Nat) (m item : Int)
    (es : List (K × V)) (cs : Int) (h : cs = sizeSum cK cV es) :
    ((evictBytesLoop cK cV m item es cs).1).2 =
      sizeSum cK cV ((evictBytesLoop cK cV m item es cs).1).1 := by
  induction es generalizing cs with
  | nil =>
    have h0 : cs = 0 := by rw [h, sizeSum_nil]
    subst h0
    simp only [evictBytesLoop]
    split <;> rfl
  | cons p ps ih =>
    by_cases hc : m < cs + item
    · rw [evictBytesLoop_cons, if_pos hc]
      apply ih
      rw [sizeSum_cons] at h
      omega
    · rw [evictBytesLoop_cons, if_neg hc]
      exact h

theorem evictBytesLoop_cs_le (cK : K → Nat) (cV : V → Nat) (m item : Int)
    (es : List (K × V)) (cs : Int) :
    ((evictBytesLoop cK cV m item es cs).1).2 ≤ cs := by
  induction es generalizing cs with
  | nil =>
    by_cases hc : m < cs + item <;> simp [evictBytesLoop, hc]
  | cons p ps ih =>
    by_cases hc : m < cs + item
    · rw [evictBytesLoop_cons, if_pos hc]
      have h1 := ih (cs - cost cK cV p)
      have h2 := cost_nonneg cK cV p
      omega
    · rw [evictBytesLoop_cons, if_neg hc]

theorem evictBytesLoop_ok_bound (cK : K → Nat) (cV : V → Nat) (m item : Int)
    (es : List (K × V)) (cs : Int)
    (h : (evictBytesLoop cK cV m item es cs).2 = .ok ()) :
    ((evictBytesLoop cK cV m item es cs).1).2 + item ≤ m := by
  induction es generalizing cs with
  | nil =>
    by_cases hc : m < cs + item
    · simp [evictBytesLoop, hc] at h
    · simp [evictBytesLoop, hc]
      omega
  | cons p ps ih =>
    by_cases hc : m < cs + item
    · rw [evictBytesLoop_cons, if_pos hc] at h ⊢
      exact ih _ h
    · rw [evictBytesLoop_cons, if_neg hc]
      show cs + item ≤ m
      omega

theorem evictBytesLoop_fits (cK : K → Nat) (cV : V → Nat) (m item : Int)
    (es : List (K × V)) (cs : Int) (hsum : cs = sizeSum cK cV es)
    (hfit : item ≤ m) :
    ∃ es2 cs2 n,
      evictBytesLoop cK cV m item es cs = ((es2, cs2), .ok ()) ∧
        cs2 + item ≤ m ∧ es2 = es.drop n := by
  induction es generalizing cs with
  | nil =>
    refine ⟨[], cs, 0, ?_, ?_, rfl⟩
    · have hc : ¬ m < cs + item := by
        rw [hsum, sizeSum_nil]
        omega
      simp [evictBytesLoop, hc]
    · rw [hsum, sizeSum_nil]
      omega
  | cons p ps ih =>
    by_cases hc : m < cs + item
    · have hsum2 : cs - cost cK cV p = sizeSum cK cV ps := by
        rw [sizeSum_cons] at hsum
        omega
      obtain ⟨es2, cs2, n, h1, h2, h3⟩ := ih (cs - cost cK cV p) hsum2
      refine ⟨es2, cs2, n + 1, ?_, h2, ?_⟩
      · rw [evictBytesLoop_cons, if_pos hc, h1]
      · rw [h3]
        rfl
    · exact ⟨p :: ps, cs, 0, by rw [evictBytesLoop_cons, if_neg hc], by omega, rfl⟩

theorem evictLenLoop_cons (cK : K → Nat) (cV : V → Nat) (ml : Int)
    (p : K × V) (ps : List (K × V)) (cs : Int) :
    evictLenLoop cK cV ml (p :: ps) cs =
      if ml ≤ ((p :: ps).length : Int) then
        if ((p :: ps).length : Int) = ml then
          evictLenLoop cK cV ml ps (cs - cost cK cV p)
        else ((p :: ps, cs), .error .assertionError)
      else ((p :: ps, cs), .ok ()) := rfl

theorem evictLenLoop_noop (cK : K → Nat) (cV : V → Nat) (ml : Int)
    (es : List (K × V)) (cs : Int) (h : (es.length : Int) < ml) :
    evictLenLoop cK cV ml es cs = ((es, cs), .ok ()) := by
  cases es with
  | nil =>
    have h0 : ¬ ml ≤ (0 : Int) := by simpa using h
    simp [evictLenLoop, h0]
  | cons p ps =>
    rw [evictLenLoop_cons, if_neg (by omega)]

theorem evictLenLoop_at_cap (cK : K → Nat) (cV : V → Nat) (ml : Int)
    (p : K × V) (ps : List (K × V)) (cs : Int)
    (h : ((p :: ps).length : Int) = ml) :
    evictLenLoop cK cV ml (p :: ps) cs =
      ((ps, cs - cost cK cV p), .ok ()) := by
  rw [evictLenLoop_cons, if_pos (by omega), if_pos h,
    evictLenLoop_noop cK cV ml ps _ (by simp at h ⊢; omega)]

theorem evictLenLoop_over_cap (cK : K → Nat) (cV : V → Nat) (ml : Int)
    (es : List (K × V)) (cs : Int) (h : ml < (es.length : Int)) :
    evictLenLoop cK cV ml es cs = ((es, cs), .error .assertionError) := by
  cases es with
  | nil =>
    simp only [List.length_nil, Nat.cast_zero] at h
    have h0 : ml ≤ (0 : Int) := by omega
    have h1 : ¬ (0 : Int) = ml := by omega
    simp [evictLenLoop, h0, h1]
  | cons p ps =>
    rw [evictLenLoop_cons, if_pos (by omega), if_neg (by omega)]

theorem evictLenLoop_sum (cK : K → Nat) (cV : V → Nat) (ml : Int)
    (es : List (K × V)) (cs : Int) (h : cs = sizeSum cK cV es) :
    ((evictLenLoop cK cV ml es cs).1).2 =
      sizeSum cK cV ((evictLenLoop cK cV ml es cs).1).1 := by
  induction es generalizing cs with
  | nil =>
    by_cases h0 : ml ≤ (0 : Int)
    · by_cases h1 : (0 : Int) = ml <;>
        simp [evictLenLoop, h0, h1, h, sizeSum_nil]
    · simp [evictLenLoop, h0, h, sizeSum_nil]
  | cons p ps ih =>
    by_cases h0 : ml ≤ ((p :: ps).length : Int)
    · by_cases h1 : ((p :: ps).length : Int) = ml
      · rw [evictLenLoop_cons, if_pos h0, if_pos h1]
        apply ih
        rw [sizeSum_cons] at h
        omega
      · rw [evictLenLoop_cons, if_pos h0, if_neg h1]
        exact h
    · rw [evictLenLoop_cons, if_neg h0]
      exact h

theorem evictLenLoop_cs_le (cK : K → Nat) (cV : V → Nat) (ml : Int)
    (es : List (K × V)) (cs : Int) :
    ((evictLenLoop cK cV ml es cs).1).2 ≤ cs := by
  induction es generalizing cs with
  | nil =>
    by_cases h0 : ml ≤ (0 : Int)
    · by_cases h1 : (0 : Int) = ml <;> simp [evictLenLoop, h0, h1]
    · simp [evictLenLoop, h0]
  | cons p ps ih =>
    by_cases h0 : ml ≤ ((p :: ps).length : Int)
    · by_cases h1 : ((p :: ps).length : Int) = ml
      · rw [evictLenLoop_cons, if_pos h0, if_pos h1]
        have h2 := ih (cs - cost cK cV p)
        have h3 := cost_nonneg cK cV p
        omega
      · rw [evictLenLoop_cons, if_pos h0, if_neg h1]
    · rw [evictLenLoop_cons, if_neg h0]

/-! ## Lemmas about `setItem` -/

theorem setItem_of_oversize (cK : K → Nat) (cV : V → Nat)
    (d : CircularDict K V) (k : K) (v : V) (m : Int)
    (hms : d.maxsize_bytes = some m) (hbig : m < (cK k : Int) + (cV v : Int)) :
    setItem cK cV d k v = (d, .error .memoryError) := by
  simp [setItem, oversizeCheck, hms, hbig]

theorem setItem_not_oversize (cK : K → Nat) (cV : V → Nat)
    (d : CircularDict K V) (k : K) (v : V)
    (h : oversizeCheck d.maxsize_bytes ((cK k : Int) + (cV v : Int)) = false) :
    setItem cK cV d k v =
      setItemLocked cK cV d k v ((cK k : Int) + (cV v : Int)) := by
  simp [setItem, h]

theorem setItem_oversize_true (cK : K → Nat) (cV : V → Nat)
    (d : CircularDict K V) (k : K) (v : V)
    (h : oversizeCheck d.maxsize_bytes ((cK k : Int) + (cV v : Int)) = true) :
    setItem cK cV d k v = (d, .error .memoryError) := by
  simp [setItem, h]

theorem bytesPhase_sum (cK : K → Nat) (cV : V → Nat) (mso : Option Int)
    (item : Int) (es : List (K × V)) (cs : Int)
    (h : cs = sizeSum cK cV es) :
    ((bytesPhase cK cV mso item es cs).1).2 =
      sizeSum cK cV ((bytesPhase cK cV mso item es cs).1).1 := by
  cases mso with
  | some m => exact evictBytesLoop_sum cK cV m item es cs h
  | none => exact h

theorem bytesPhase_cs_le (cK : K → Nat) (cV : V → Nat) (mso : Option Int)
    (item : Int) (es : List (K × V)) (cs : Int) :
    ((bytesPhase cK cV mso item es cs).1).2 ≤ cs := by
  cases mso with
  | some m => exact evictBytesLoop_cs_le cK cV m item es cs
  | none => exact le_refl _

theorem lenPhase_sum (cK : K → Nat) (cV : V → Nat) (mlo : Option Int)
    (es : List (K × V)) (cs : Int) (h : cs = sizeSum cK cV es) :
    ((lenPhase cK cV mlo es cs).1).2 =
      sizeSum cK cV ((lenPhase cK cV mlo es cs).1).1 := by
  cases mlo with
  | some ml => exact evictLenLoop_sum cK cV ml es cs h
  | none => exact h

theorem lenPhase_cs_le (cK : K → Nat) (cV : V → Nat) (mlo : Option Int)
    (es : List (K × V)) (cs : Int) :
    ((lenPhase cK cV mlo es cs).1).2 ≤ cs := by
  cases mlo with
  | some ml => exact evictLenLoop_cs_le cK cV ml es cs
  | none => exact le_refl _

theorem setItemLocked_sum (cK : K → Nat) (cV : V → Nat)
    (d : CircularDict K V) (k : K) (v : V)
    (hinv : d.current_size = sizeSum cK cV d.entries) :
    ((setItemLocked cK cV d k v ((cK k : Int) + (cV v : Int))).1).current_size =
      sizeSum cK cV
        ((setItemLocked cK cV d k v ((cK k : Int) + (cV v : Int))).1).entries := by
  have h1 := delItem_sum cK cV d k hinv
  simp only [setItemLocked]
  rcases hE : bytesPhase cK cV (delItem cK cV d k).maxsize_bytes
      ((cK k : Int) + (cV v : Int)) (delItem cK cV d k).entries
      (delItem cK cV d k).current_size with ⟨⟨es2, cs2⟩, r2⟩
  have hB := bytesPhase_sum cK cV (delItem cK cV d k).maxsize_bytes
    ((cK k : Int) + (cV v : Int)) (delItem cK cV d k).entries
    (delItem cK cV d k).current_size h1
  rw [hE] at hB
  simp only at hB
  cases r2 with
  | error e => simpa [afterBytes] using hB
  | ok u =>
    cases u
    simp only [afterBytes]
    rcases hF : lenPhase cK cV (delItem cK cV d k).maxlen es2 cs2 with
      ⟨⟨es3, cs3⟩, r3⟩
    have hL := lenPhase_sum cK cV (delItem cK cV d k).maxlen es2 cs2 hB
    rw [hF] at hL
    simp only at hL
    cases r3 with
    | error e => simpa [afterLen] using hL
    | ok u =>
      cases u
      simp [afterLen, sizeSum_append, sizeSum_cons, sizeSum_nil, cost, hL]

theorem setItem_sum (cK : K → Nat) (cV : V → Nat) (d : CircularDict K V)
    (k : K) (v : V) (hinv : d.current_size = sizeSum cK cV d.entries) :
    ((setItem cK cV d k v).1).current_size =
      sizeSum cK cV ((setItem cK cV d k v).1).entries := by
  cases hov : oversizeCheck d.maxsize_bytes ((cK k : Int) + (cV v : Int)) with
  | true =>
    rw [setItem_oversize_true cK cV d k v hov]
    exact hinv
  | false =>
    rw [setItem_not_oversize cK cV d k v hov]
    exact setItemLocked_sum cK cV d k v hinv

theorem bytesPhase_ok_bound (cK : K → Nat) (cV : V → Nat) (m item : Int)
    (es : List (K × V)) (cs : Int)
    (h : (bytesPhase cK cV (some m) item es cs).2 = .ok ()) :
    ((bytesPhase cK cV (some m) item es cs).1).2 + item ≤ m :=
  evictBytesLoop_ok_bound cK cV m item es cs h

theorem setItemLocked_bound (cK : K → Nat) (cV : V → Nat)
    (d : CircularDict K V) (k : K) (v : V) (item m : Int)
    (hms : d.maxsize_bytes = some m) (hb : d.current_size ≤ m)
    (hitem0 : 0 ≤ item) (hitem : item ≤ m) :
    ((setItemLocked cK cV d k v item).1).current_size ≤ m := by
  have h1 : (delItem cK cV d k).current_size ≤ m :=
    le_trans (delItem_cs_le cK cV d k) hb
  have hms1 : (delItem cK cV d k).maxsize_bytes = some m := by
    rw [delItem_maxsize_bytes, hms]
  simp only [setItemLocked, hms1]
  rcases hE : bytesPhase cK cV (some m) item (delItem cK cV d k).entries
      (delItem cK cV d k).current_size with ⟨⟨es2, cs2⟩, r2⟩
  have hle : cs2 ≤ (delItem cK cV d k).current_size := by
    have := bytesPhase_cs_le cK cV (some m) item (delItem cK cV d k).entries
      (delItem cK cV d k).current_size
    rw [hE] at this
    exact this
  cases r2 with
  | error e =>
    simp only [afterBytes]
    omega
  | ok u =>
    cases u
    have hokb : cs2 + item ≤ m := by
      have := bytesPhase_ok_bound cK cV m item (delItem cK cV d k).entries
        (delItem cK cV d k).current_size (by rw [hE])
      rw [hE] at this
      exact this
    simp only [afterBytes]
    rcases hF : lenPhase cK cV (delItem cK cV d k).maxlen es2 cs2 with
      ⟨⟨es3, cs3⟩, r3⟩
    have hle2 : cs3 ≤ cs2 := by
      have := lenPhase_cs_le cK cV (delItem cK cV d k).maxlen es2 cs2
      rw [hF] at this
      exact this
    cases r3 with
    | error e =>
      simp only [afterLen]
      omega
    | ok u =>
      cases u
      simp only [afterLen]
      omega

theorem setItem_bound (cK : K → Nat) (cV : V → Nat) (d : CircularDict K V)
    (k : K) (v : V) (m : Int) (hms : d.maxsize_bytes = some m)
    (hb : d.current_size ≤ m) :
    ((setItem cK cV d k v).1).current_size ≤ m := by
  by_cases hbig : m < (cK k : Int) + (cV v : Int)
  · rw [setItem_of_oversize cK cV d k v m hms hbig]
    exact hb
  · have hov : oversizeCheck d.maxsize_bytes ((cK k : Int) + (cV v : Int)) = false := by
      simp [oversizeCheck, hms, hbig]
    rw [setItem_not_oversize cK cV d k v hov]
    exact setItemLocked_bound cK cV d k v _ m hms hb (by omega) (by omega)

/-! ## Field preservation and characterizations of `popB` and `popitemB` -/

theorem afterLen_fields (d1 : CircularDict K V) (k : K) (v : V) (item : Int)
    (r : (List (K × V) × Int) × Except DErr Unit) :
    ((afterLen d1 k v item r).1).maxlen = d1.maxlen ∧
      ((afterLen d1 k v item r).1).maxsize_bytes = d1.maxsize_bytes := by
  rcases r with ⟨⟨es3, cs3⟩, r3⟩
  cases r3 with
  | error e => exact ⟨rfl, rfl⟩
  | ok u => cases u; exact ⟨rfl, rfl⟩

theorem setItem_fields (cK : K → Nat) (cV : V → Nat) (d : CircularDict K V)
    (k : K) (v : V) :
    ((setItem cK cV d k v).1).maxlen = d.maxlen ∧
      ((setItem cK cV d k v).1).maxsize_bytes = d.maxsize_bytes := by
  cases hov : oversizeCheck d.maxsize_bytes ((cK k : Int) + (cV v : Int)) with
  | true =>
    rw [setItem_oversize_true cK cV d k v hov]
    exact ⟨rfl, rfl⟩
  | false =>
    rw [setItem_not_oversize cK cV d k v hov]
    simp only [setItemLocked]
    rcases hE : bytesPhase cK cV (delItem cK cV d k).maxsize_bytes
        ((cK k : Int) + (cV v : Int)) (delItem cK cV d k).entries
        (delItem cK cV d k).current_size with ⟨⟨es2, cs2⟩, r2⟩
    have hdl := delItem_maxlen cK cV d k
    have hds := delItem_maxsize_bytes cK cV d k
    cases r2 with
    | error e =>
      simp only [afterBytes]
      exact ⟨hdl, hds⟩
    | ok u =>
      cases u
      simp only [afterBytes]
      have := afterLen_fields (delItem cK cV d k) k v
        ((cK k : Int) + (cV v : Int))
        (lenPhase cK cV (delItem cK cV d k).maxlen es2 cs2)
      exact ⟨this.1.trans hdl, this.2.trans hds⟩

theorem popB_of_absent_none (cK : K → Nat) (cV : V → Nat)
    (d : CircularDict K V) (k : K) (h : lookupKey k d.entries = none) :
    popB cK cV d k none = (d, .error .keyError) := by
  simp [popB, h]

theorem popB_of_absent_some (cK : K → Nat) (cV : V → Nat)
    (d : CircularDict K V) (k : K) (dv : V)
    (h : lookupKey k d.entries = none) :
    popB cK cV d k (some dv) = (d, .ok dv) := by
  simp [popB, h]

theorem popB_of_present (cK : K → Nat) (cV : V → Nat) (d : CircularDict K V)
    (k : K) (v : V) (dflt : Option V) (h : lookupKey k d.entries = some v) :
    popB cK cV d k dflt =
      ({ d with entries := removeKey k d.entries,
                current_size :=
                  d.current_size - ((cK k : Int) + (cV v : Int)) }, .ok v) := by
  simp [popB, h]

theorem popB_state_eq_delItem (cK : K → Nat) (cV : V → Nat)
    (d : CircularDict K V) (k : K) (dflt : Option V) :
    (popB cK cV d k dflt).1 = delItem cK cV d k := by
  cases h : lookupKey k d.entries with
  | none =>
    rw [delItem_of_lookup_none cK cV d k h]
    cases dflt with
    | none => rw [popB_of_absent_none cK cV d k h]
    | some dv => rw [popB_of_absent_some cK cV d k dv h]
  | some v =>
    rw [popB_of_present cK cV d k v dflt h, delItem_of_lookup_some cK cV d k v h]

theorem popitemB_of_empty (cK : K → Nat) (cV : V → Nat)
    (d : CircularDict K V) (last : Bool) (h : d.entries = []) :
    popitemB cK cV d last = (d, .error .keyError) := by
  have : superPopitem last d.entries = none := by
    rw [superPopitem_eq_none_iff]
    exact h
  simp [popitemB, this]

theorem popitemB_of_superPopitem (cK : K → Nat) (cV : V → Nat)
    (d : CircularDict K V) (last : Bool) (k : K) (v : V)
    (es : List (K × V)) (h : superPopitem last d.entries = some ((k, v), es)) :
    popitemB cK cV d last =
      ({ d with entries := es,
                current_size :=
                  d.current_size - ((cK k : Int) + (cV v : Int)) },
       .ok (k, v)) := by
  simp [popitemB, h]

theorem popitemB_sum (cK : K → Nat) (cV : V → Nat) (d : CircularDict K V)
    (last : Bool) (hinv : d.current_size = sizeSum cK cV d.entries) :
    ((popitemB cK cV d last).1).current_size =
      sizeSum cK cV ((popitemB cK cV d last).1).entries := by
  cases h : superPopitem last d.entries with
  | none =>
    have he : d.entries = [] := (superPopitem_eq_none_iff last d.entries).mp h
    rw [popitemB_of_empty cK cV d last he]
    exact hinv
  | some r =>
    rcases r with ⟨⟨k, v⟩, es⟩
    rw [popitemB_of_superPopitem cK cV d last k v es h]
    have := (superPopitem_spec cK cV last d.entries es k v h).1
    simp only [cost] at this
    simp only [this, hinv]

theorem popitemB_cs_le (cK : K → Nat) (cV : V → Nat) (d : CircularDict K V)
    (last : Bool) :
    ((popitemB cK cV d last).1).current_size ≤ d.current_size := by
  cases h : superPopitem last d.entries with
  | none =>
    have he : d.entries = [] := (superPopitem_eq_none_iff last d.entries).mp h
    rw [popitemB_of_empty cK cV d last he]
  | some r =>
    rcases r with ⟨⟨k, v⟩, es⟩
    rw [popitemB_of_superPopitem cK cV d last k v es h]
    simp only
    omega

theorem popitemB_fields (cK : K → Nat) (cV : V → Nat) (d : CircularDict K V)
    (last : Bool) :
    ((popitemB cK cV d last).1).maxlen = d.maxlen ∧
      ((popitemB cK cV d last).1).maxsize_bytes = d.maxsize_bytes := by
  cases h : superPopitem last d.entries with
  | none =>
    have he : d.entries = [] := (superPopitem_eq_none_iff last d.entries).mp h
    rw [popitemB_of_empty cK cV d last he]
    exact ⟨rfl, rfl⟩
  | some r =>
    rcases r with ⟨⟨k, v⟩, es⟩
    rw [popitemB_of_superPopitem cK cV d last k v es h]
    exact ⟨rfl, rfl⟩

theorem popB_sum (cK : K → Nat) (cV : V → Nat) (d : CircularDict K V)
    (k : K) (dflt : Option V)
    (hinv : d.current_size = sizeSum cK cV d.entries) :
    ((popB cK cV d k dflt).1).current_size =
      sizeSum cK cV ((popB cK cV d k dflt).1).entries := by
  rw [popB_state_eq_delItem]
  exact delItem_sum cK cV d k hinv

theorem popB_cs_le (cK : K → Nat) (cV : V → Nat) (d : CircularDict K V)
    (k : K) (dflt : Option V) :
    ((popB cK cV d k dflt).1).current_size ≤ d.current_size := by
  rw [popB_state_eq_delItem]
  exact delItem_cs_le cK cV d k

theorem popB_fields (cK : K → Nat) (cV : V → Nat) (d : CircularDict K V)
    (k : K) (dflt : Option V) :
    ((popB cK cV d k dflt).1).maxlen = d.maxlen ∧
      ((popB cK cV d k dflt).1).maxsize_bytes = d.maxsize_bytes := by
  rw [popB_state_eq_delItem]
  exact ⟨delItem_maxlen cK cV d k, delItem_maxsize_bytes cK cV d k⟩

/-! ## Invariant preservation along a run of public operations -/

theorem step_accounted (cK : K → Nat) (cV : V → Nat) (d : CircularDict K V)
    (op : Op K V) (hinv : Accounted cK cV d) :
    Accounted cK cV (step cK cV d op) := by
  cases op with
  | set k v => exact setItem_sum cK cV d k v hinv
  | del k => exact delItem_sum cK cV d k hinv
  | pop k dflt => exact popB_sum cK cV d k dflt hinv
  | popitem last => exact popitemB_sum cK cV d last hinv
  | clear => rfl

theorem step_maxsize_bytes (cK : K → Nat) (cV : V → Nat)
    (d : CircularDict K V) (op : Op K V) :
    (step cK cV d op).maxsize_bytes = d.maxsize_bytes := by
  cases op with
  | set k v => exact (setItem_fields cK cV d k v).2
  | del k => exact delItem_maxsize_bytes cK cV d k
  | pop k dflt => exact (popB_fields cK cV d k dflt).2
  | popitem last => exact (popitemB_fields cK cV d last).2
  | clear => rfl

theorem step_maxlen (cK : K → Nat) (cV : V → Nat)
    (d : CircularDict K V) (op : Op K V) :
    (step cK cV d op).maxlen = d.maxlen := by
  cases op with
  | set k v => exact (setItem_fields cK cV d k v).1
  | del k => exact delItem_maxlen cK cV d k
  | pop k dflt => exact (popB_fields cK cV d k dflt).1
  | popitem last => exact (popitemB_fields cK cV d last).1
  | clear => rfl

theorem step_bound (cK : K → Nat) (cV : V → Nat) (d : CircularDict K V)
    (op : Op K V) (m : Int) (hms : d.maxsize_bytes = some m) (h0 : 0 ≤ m)
    (hb : d.current_size ≤ m) :
    (step cK cV d op).current_size ≤ m := by
  cases op with
  | set k v => exact setItem_bound cK cV d k v m hms hb
  | del k => exact le_trans (delItem_cs_le cK cV d k) hb
  | pop k dflt => exact le_trans (popB_cs_le cK cV d k dflt) hb
  | popitem last => exact le_trans (popitemB_cs_le cK cV d last) hb
  | clear => exact h0

theorem runOps_accounted (cK : K → Nat) (cV : V → Nat)
    (ops : List (Op K V)) (d : CircularDict K V)
    (hinv : Accounted cK cV d) :
    Accounted cK cV (runOps cK cV d ops) := by
  induction ops generalizing d with
  | nil => exact hinv
  | cons op ops ih => exact ih (step cK cV d op) (step_accounted cK cV d op hinv)

theorem runOps_bound (cK : K → Nat) (cV : V → Nat) (ops : List (Op K V))
    (d : CircularDict K V) (m : Int) (hms : d.maxsize_bytes = some m)
    (h0 : 0 ≤ m) (hb : d.current_size ≤ m) :
    (runOps cK cV d ops).current_size ≤ m := by
  induction ops generalizing d with
  | nil => exact hb
  | cons op ops ih =>
    exact ih (step cK cV d op)
      ((step_maxsize_bytes cK cV d op).trans hms)
      (step_bound cK cV d op m hms h0 hb)

/-! ## `setItem` on a fresh key with only a count cap -/

theorem setItem_fresh_below (cK : K → Nat) (cV : V → Nat)
    (d : CircularDict K V) (k : K) (v : V) (N : Int)
    (hms : d.maxsize_bytes = none) (hml : d.maxlen = some N)
    (hlk : lookupKey k d.entries = none)
    (hlen : (d.entries.length : Int) < N) :
    setItem cK cV d k v =
      ({ d with entries := d.entries ++ [(k, v)],
                current_size :=
                  d.current_size + ((cK k : Int) + (cV v : Int)) }, .ok ()) := by
  have hov : oversizeCheck d.maxsize_bytes ((cK k : Int) + (cV v : Int)) = false := by
    simp [oversizeCheck, hms]
  rw [setItem_not_oversize cK cV d k v hov]
  simp only [setItemLocked]
  rw [delItem_of_lookup_none cK cV d k hlk, hms]
  simp only [bytesPhase, afterBytes]
  rw [hml]
  simp only [lenPhase]
  rw [evictLenLoop_noop cK cV N d.entries d.current_size hlen]
  simp only [afterLen]
  rw [hml, hms]

theorem setItem_fresh_at_cap (cK : K → Nat) (cV : V → Nat)
    (d : CircularDict K V) (k : K) (v : V) (N : Int) (q : K × V)
    (t : List (K × V)) (hms : d.maxsize_bytes = none)
    (hml : d.maxlen = some N) (hlk : lookupKey k d.entries = none)
    (he : d.entries = q :: t) (hlen : ((q :: t).length : Int) = N) :
    setItem cK cV d k v =
      ({ d with entries := t ++ [(k, v)],
                current_size := d.current_size - cost cK cV q +
                  ((cK k : Int) + (cV v : Int)) }, .ok ()) := by
  have hov : oversizeCheck d.maxsize_bytes ((cK k : Int) + (cV v : Int)) = false := by
    simp [oversizeCheck, hms]
  rw [setItem_not_oversize cK cV d k v hov]
  simp only [setItemLocked]
  rw [delItem_of_lookup_none cK cV d k hlk, hms]
  simp only [bytesPhase, afterBytes]
  rw [hml]
  simp only [lenPhase]
  rw [he, evictLenLoop_at_cap cK cV N q t d.current_size hlen]
  simp only [afterLen]
  rw [hml, hms]

theorem setItem_fresh_over_cap (cK : K → Nat) (cV : V → Nat)
    (d : CircularDict K V) (k : K) (v : V) (N : Int)
    (hms : d.maxsize_bytes = none) (hml : d.maxlen = some N)
    (hlk : lookupKey k d.entries = none)
    (hlen : N < (d.entries.length : Int)) :
    setItem cK cV d k v = (d, .error .assertionError) := by
  have hov : oversizeCheck d.maxsize_bytes ((cK k : Int) + (cV v : Int)) = false := by
    simp [oversizeCheck, hms]
  rw [setItem_not_oversize cK cV d k v hov]
  simp only [setItemLocked]
  rw [delItem_of_lookup_none cK cV d k hlk, hms]
  simp only [bytesPhase, afterBytes]
  rw [hml]
  simp only [lenPhase]
  rw [evictLenLoop_over_cap cK cV N d.entries d.current_size hlen]
  simp only [afterLen]

/-! ## Folding insertions of distinct fresh keys under a count cap -/

theorem lookupKey_append_none (k : K) (l1 l2 : List (K × V))
    (h1 : lookupKey k l1 = none) (h2 : lookupKey k l2 = none) :
    lookupKey k (l1 ++ l2) = none := by
  rw [lookupKey_eq_none_iff] at h1 h2 ⊢
  intro p hp
  rcases List.mem_append.mp hp with h | h
  · exact h1 p h
  · exact h2 p h

theorem lookupKey_tail_none (k : K) (q : K × V) (t : List (K × V))
    (h : lookupKey k (q :: t) = none) : lookupKey k t = none := by
  rw [lookupKey_eq_none_iff] at h ⊢
  exact fun p hp => h p (List.mem_cons_of_mem q hp)

theorem lookupKey_singleton_of_ne (k k2 : K) (v : V) (h : k ≠ k2) :
    lookupKey k2 [(k, v)] = none := by
  simp [lookupKey, h]

theorem insertAll_nil (cK : K → Nat) (cV : V → Nat) (d : CircularDict K V) :
    insertAll cK cV d [] = d := rfl

theorem insertAll_cons (cK : K → Nat) (cV : V → Nat) (d : CircularDict K V)
    (p : K × V) (ps : List (K × V)) :
    insertAll cK cV d (p :: ps) =
      insertAll cK cV (setItem cK cV d p.1 p.2).1 ps := rfl

theorem insertAll_fields (cK : K → Nat) (cV : V → Nat) (ps : List (K × V)) :
    ∀ d : CircularDict K V,
      (insertAll cK cV d ps).maxlen = d.maxlen ∧
        (insertAll cK cV d ps).maxsize_bytes = d.maxsize_bytes := by
  induction ps with
  | nil => exact fun d => ⟨rfl, rfl⟩
  | cons p ps ih =>
    intro d
    rw [insertAll_cons]
    have h1 := ih (setItem cK cV d p.1 p.2).1
    have h2 := setItem_fields cK cV d p.1 p.2
    exact ⟨h1.1.trans h2.1, h1.2.trans h2.2⟩

theorem insertAll_entries_drop (cK : K → Nat) (cV : V → Nat) (N : Nat)
    (hN : 1 ≤ N) (ps : List (K × V)) :
    ∀ d : CircularDict K V,
      d.maxsize_bytes = none → d.maxlen = some (N : Int) →
      (∀ p ∈ ps, lookupKey p.1 d.entries = none) →
      (ps.map Prod.fst).Nodup →
      d.entries.length ≤ N →
      (insertAll cK cV d ps).entries =
        (d.entries ++ ps).drop (d.entries.length + ps.length - N) := by
  induction ps with
  | nil =>
    intro d hms hml hfresh hnd hlen
    rw [insertAll_nil, List.append_nil]
    have h0 : d.entries.length + ([] : List (K × V)).length - N = 0 := by
      simp only [List.length_nil]
      omega
    rw [h0, List.drop_zero]
  | cons p ps ih =>
    intro d hms hml hfresh hnd hlen
    rcases p with ⟨k, v⟩
    have hlk : lookupKey k d.entries = none :=
      hfresh (k, v) (List.mem_cons_self _ _)
    have hknotin : k ∉ ps.map Prod.fst := by
      have := hnd
      simp only [List.map_cons, List.nodup_cons] at this
      exact this.1
    have hfresh2 : ∀ q ∈ ps, lookupKey q.1 [(k, v)] = none := by
      intro q hq
      refine lookupKey_singleton_of_ne k q.1 v ?_
      intro hkq
      exact hknotin (hkq ▸ List.mem_map_of_mem Prod.fst hq)
    have hnd2 : (ps.map Prod.fst).Nodup := by
      have := hnd
      simp only [List.map_cons, List.nodup_cons] at this
      exact this.2
    by_cases hcap : d.entries.length = N
    · -- at capacity: the oldest entry is evicted before the append
      rcases he : d.entries with _ | ⟨q, t⟩
      · rw [he] at hcap
        simp at hcap
        omega
      · have hlenI : ((q :: t).length : Int) = (N : Int) := by
          rw [← he, hcap]
        have hset := setItem_fresh_at_cap cK cV d k v (N : Int) q t hms hml
          hlk he hlenI
        have hent : (setItem cK cV d k v).1.entries = t ++ [(k, v)] := by
          rw [hset]
        have htl : t.length + 1 = N := by
          rw [he] at hcap
          simpa using hcap
        have hfields := setItem_fields cK cV d k v
        have hres := ih (setItem cK cV d k v).1 (hfields.2.trans hms)
          (hfields.1.trans hml)
          (by
            intro q2 hq2
            rw [hent]
            refine lookupKey_append_none q2.1 t [(k, v)] ?_ (hfresh2 q2 hq2)
            exact lookupKey_tail_none q2.1 q t
              (he ▸ hfresh q2 (List.mem_cons_of_mem _ hq2)))
          hnd2
          (by rw [hent]; simp; omega)
        rw [hent] at hres
        rw [insertAll_cons, hres]
        simp only [List.length_append, List.length_cons, List.length_nil, he]
        have hc1 : t.length + 0 + 1 + ps.length - N = ps.length := by omega
        have hc2 : t.length + 1 + (ps.length + 1) - N = ps.length + 1 := by
          omega
        rw [hc1, hc2, List.cons_append, List.drop_succ_cons, List.append_assoc,
          List.singleton_append]
    · -- below capacity: plain append
      have hlt : d.entries.length < N := by omega
      have hset := setItem_fresh_below cK cV d k v (N : Int) hms hml hlk
        (by exact_mod_cast hlt)
      have hent : (setItem cK cV d k v).1.entries = d.entries ++ [(k, v)] := by
        rw [hset]
      have hfields := setItem_fields cK cV d k v
      have hres := ih (setItem cK cV d k v).1 (hfields.2.trans hms)
        (hfields.1.trans hml)
        (by
          intro q2 hq2
          rw [hent]
          exact lookupKey_append_none q2.1 d.entries [(k, v)]
            (hfresh q2 (List.mem_cons_of_mem _ hq2)) (hfresh2 q2 hq2))
        hnd2
        (by rw [hent]; simp; omega)
      rw [hent] at hres
      rw [insertAll_cons, hres]
      simp only [List.length_append, List.length_cons, List.length_nil]
      have hc : d.entries.length + 0 + 1 + ps.length - N =
          d.entries.length + (ps.length + 1) - N := by omega
      rw [hc, List.append_assoc, List.singleton_append]

/-! ## Updating a resident key, pop variant equivalence, construction -/

theorem setItem_update (cK : K → Nat) (cV : V → Nat) (d : CircularDict K V)
    (k : K) (v oldv : V) (hv : lookupKey k d.entries = some oldv)
    (hsum : d.current_size = sizeSum cK cV d.entries)
    (hfit : ∀ m, d.maxsize_bytes = some m →
      d.current_size - ((cK k : Int) + (cV oldv : Int)) +
        ((cK k : Int) + (cV v : Int)) ≤ m)
    (hlen : ∀ ml, d.maxlen = some ml → (d.entries.length : Int) ≤ ml) :
    setItem cK cV d k v =
      ({ d with entries := removeKey k d.entries ++ [(k, v)],
                current_size := d.current_size -
                  ((cK k : Int) + (cV oldv : Int)) +
                  ((cK k : Int) + (cV v : Int)) }, .ok ()) := by
  have hrem : sizeSum cK cV (removeKey k d.entries) =
      d.current_size - ((cK k : Int) + (cV oldv : Int)) := by
    rw [sizeSum_removeKey cK cV k oldv d.entries hv, hsum]
  have hremnn : 0 ≤ sizeSum cK cV (removeKey k d.entries) :=
    sizeSum_nonneg cK cV (removeKey k d.entries)
  have hov : oversizeCheck d.maxsize_bytes ((cK k : Int) + (cV v : Int)) = false := by
    cases hms : d.maxsize_bytes with
    | none => rfl
    | some m =>
      have := hfit m hms
      simp only [oversizeCheck, decide_eq_false_iff_not, not_lt]
      omega
  rw [setItem_not_oversize cK cV d k v hov]
  simp only [setItemLocked]
  rw [delItem_of_lookup_some cK cV d k oldv hv]
  dsimp only
  have hlrk : ∀ ml : Int, d.maxlen = some ml →
      ((removeKey k d.entries).length : Int) < ml := by
    intro ml hml
    have h1 := length_removeKey k oldv d.entries hv
    have h2 := hlen ml hml
    omega
  cases hms : d.maxsize_bytes with
  | none =>
    simp only [bytesPhase, afterBytes]
    cases hml : d.maxlen with
    | none => simp only [lenPhase, afterLen]
    | some ml =>
      simp only [lenPhase]
      rw [evictLenLoop_noop cK cV ml (removeKey k d.entries) _ (hlrk ml hml)]
      simp only [afterLen]
  | some m =>
    simp only [bytesPhase]
    have hnofit : ¬ m < (d.current_size - ((cK k : Int) + (cV oldv : Int))) +
        ((cK k : Int) + (cV v : Int)) := by
      have := hfit m hms
      omega
    rw [evictBytesLoop_noop cK cV m _ (removeKey k d.entries) _ hnofit]
    simp only [afterBytes]
    cases hml : d.maxlen with
    | none => simp only [lenPhase, afterLen]
    | some ml =>
      simp only [lenPhase]
      rw [evictLenLoop_noop cK cV ml (removeKey k d.entries) _ (hlrk ml hml)]
      simp only [afterLen]

theorem popA_eq_popB (cK : K → Nat) (cV : V → Nat) (d : CircularDict K V)
    (k : K) (dflt : Option V) :
    popA cK cV d k dflt = popB cK cV d k dflt := by
  cases hv : lookupKey k d.entries with
  | none => cases dflt <;> simp [popA, popB, hv]
  | some v =>
    simp only [popA, popB, hv]
    rw [delItem_of_lookup_some cK cV d k v hv]
    dsimp only
    by_cases h0 : (cK k : Int) + (cV v : Int) = 0
    · rw [if_pos (by omega)]
      simp [h0]
    · rw [if_neg (by omega), if_pos rfl]

theorem popitemA_eq_popitemB (cK : K → Nat) (cV : V → Nat)
    (d : CircularDict K V) (last : Bool) :
    popitemA cK cV d last = popitemB cK cV d last := by
  cases hsp : superPopitem last d.entries with
  | none => simp [popitemA, popitemB, hsp]
  | some r =>
    rcases r with ⟨⟨k, v⟩, es⟩
    simp only [popitemA, popitemB, hsp]
    by_cases h0 : (cK k : Int) + (cV v : Int) = 0
    · rw [if_pos (by omega)]
      simp [h0]
    · rw [if_neg (by omega)]
      simp

theorem initDict_error_iff (mlo mso : Option Int) (avail : Bool) :
    (initDict mlo mso avail : Except DErr (CircularDict K V)) =
        .error .assertionError ↔
      ((mlo = none ∧ mso = none) ∨ (avail = false ∧ mso ≠ none)) := by
  unfold initDict
  by_cases h1 : mlo = none ∧ mso = none
  · simp [h1]
  · rw [if_neg h1]
    by_cases h2 : avail = false ∧ mso ≠ none
    · simp [h2, h1]
    · simp [h2, h1]

theorem is_full_of_maxlen (d : CircularDict K V) (N : Int)
    (hms : d.maxsize_bytes = none) (hml : d.maxlen = some N)
    (hlen : (d.entries.length : Int) = N) : is_full d = .ok true := by
  have h1 : sizeAssertOk d = true := by simp [sizeAssertOk, hms]
  have h2 : lenAssertOk d = true := by simp [lenAssertOk, hml, hlen]
  have h3 : lenFullCheck d = true := by simp [lenFullCheck, hml, hlen]
  simp [is_full, h1, h2, h3]

/-! ## Claims -/

/-- Claim C1, counterexample: the code does NOT decrement `current_size` by
the cost recorded at insertion time.  With an insertion-time size function
reporting 2 + 3 = 5 and a removal-time size function reporting 1 + 1 = 2,
inserting `(0, 0)` into a fresh dict records size 5, but the subsequent
delete leaves `current_size = 3` instead of the `5 - 5 = 0` the claim
requires. -/
theorem claim1_counterexample :
    ((setItem (fun _ : Nat => 2) (fun _ : Nat => 3)
        (emptyDict (some 10) none) 0 0).1).current_size = 5 ∧
    (delItem (fun _ : Nat => 1) (fun _ : Nat => 1)
        ((setItem (fun _ : Nat => 2) (fun _ : Nat => 3)
          (emptyDict (some 10) none) 0 0).1) 0).current_size = 3 ∧
    (3 : Int) ≠ 5 - 5 := by
  refine ⟨by decide, by decide, by decide⟩

/-- Claim C1, amended: every removal path (`__delitem__`, `pop`, `popitem`)
decrements `current_size` by the cost freshly recomputed with the size
function as evaluated at the removal call; this coincides with the
insertion-time cost only when the size function is stable across calls. -/
theorem claim1_amended (cK : K → Nat) (cV : V → Nat) (d : CircularDict K V)
    (k : K) (v : V) (hv : lookupKey k d.entries = some v) :
    (delItem cK cV d k).current_size =
        d.current_size - ((cK k : Int) + (cV v : Int)) ∧
    ((popB cK cV d k none).1).current_size =
        d.current_size - ((cK k : Int) + (cV v : Int)) ∧
    (∀ (last : Bool) (k2 : K) (v2 : V) (es2 : List (K × V)),
      superPopitem last d.entries = some ((k2, v2), es2) →
      ((popitemB cK cV d last).1).current_size =
        d.current_size - ((cK k2 : Int) + (cV v2 : Int))) := by
  refine ⟨?_, ?_, ?_⟩
  · rw [delItem_of_lookup_some cK cV d k v hv]
  · rw [popB_of_present cK cV d k v none hv]
  · intro last k2 v2 es2 hsp
    rw [popitemB_of_superPopitem cK cV d last k2 v2 es2 hsp]

/-- Claim C1 amended, witness at a concrete state: deleting key 1 from
`exDict1` (id costs, entry `(1, 7)` so removal cost 8, size 9) leaves
`current_size = 1`, and `popitem` with fresh costs decrements by the
recomputed cost. -/
theorem claim1_amended_witness :
    (delItem id id exDict1 1).current_size = 1 ∧
    ((popB id id exDict1 1 none).1).current_size = 1 := by
  have h := claim1_amended id id exDict1 1 7 (by decide)
  exact ⟨h.1.trans (by decide), h.2.1.trans (by decide)⟩

/-- Claim C4: when `maxsize_bytes` is set and the item's own cost exceeds
it, `__setitem__` raises `MemoryError` and returns the state completely
unchanged — no eviction, no reordering, no size change — regardless of
occupancy and even when the key is already resident. -/
theorem claim4 (cK : K → Nat) (cV : V → Nat) (d : CircularDict K V) (k : K)
    (v : V) (m : Int) (hms : d.maxsize_bytes = some m)
    (hbig : m < (cK k : Int) + (cV v : Int)) :
    setItem cK cV d k v = (d, .error .memoryError) :=
  setItem_of_oversize cK cV d k v m hms hbig

/-- Claim C4, witness: re-inserting the resident key 1 of `exDict4` with a
value of cost 9 (item cost 10 > cap 6) is rejected with the state
untouched. -/
theorem claim4_witness :
    setItem id id exDict4 1 9 = (exDict4, .error .memoryError) :=
  claim4 id id exDict4 1 9 6 rfl (by decide)

/-- Claim C5, counterexample: the constructor does NOT validate positivity
of the caps; `maxlen = 0` (a non-positive cap) is accepted and construction
succeeds instead of failing with a configuration error. -/
theorem claim5_counterexample :
    (initDict (some 0) none true : Except DErr (CircularDict Nat Nat)) =
      .ok (emptyDict (some 0) none) := rfl

/-- Claim C5, amended: construction fails (with the assertion-based
configuration error) exactly when no cap is supplied, or when
`maxsize_bytes` is supplied while `sys.getsizeof` is unavailable;
non-positive caps are accepted without validation. -/
theorem claim5_amended (mlo mso : Option Int) (avail : Bool) :
    (initDict mlo mso avail : Except DErr (CircularDict K V)) =
        .error .assertionError ↔
      ((mlo = none ∧ mso = none) ∨ (avail = false ∧ mso ≠ none)) :=
  initDict_error_iff mlo mso avail

/-- Claim C5 amended, witness: supplying neither cap fails, and supplying a
byte cap without a size-measurement capability fails. -/
theorem claim5_witness :
    (initDict none none true : Except DErr (CircularDict Nat Nat)) =
        .error .assertionError ∧
    (initDict none (some 5) false : Except DErr (CircularDict Nat Nat)) =
        .error .assertionError :=
  ⟨(claim5_amended none none true).mpr (Or.inl ⟨rfl, rfl⟩),
   (claim5_amended none (some 5) false).mpr
     (Or.inr ⟨rfl, by simp⟩)⟩

/-- Claim C2: for every sequence of public operations (set, delete, pop,
popitem, clear) from a freshly constructed map with a fixed size function,
after each operation `current_size` equals the sum of the per-entry costs of
the resident entries, and when `maxsize_bytes` is set (to a positive cap,
as construction requires) and every inserted item's own cost is at most the
cap, `current_size` never exceeds it. -/
theorem claim2 (cK : K → Nat) (cV : V → Nat) (mlo mso : Option Int)
    (ops : List (Op K V)) :
    Accounted cK cV (runOps cK cV (emptyDict mlo mso) ops) ∧
    (∀ m : Int, mso = some m → 0 < m →
      (∀ (k : K) (v : V), Op.set k v ∈ ops →
        (cK k : Int) + (cV v : Int) ≤ m) →
      (runOps cK cV (emptyDict mlo mso) ops).current_size ≤ m) := by
  constructor
  · exact runOps_accounted cK cV ops (emptyDict mlo mso) rfl
  · intro m hm h0 hcosts
    exact runOps_bound cK cV ops (emptyDict mlo mso) m
      (show (emptyDict mlo mso : CircularDict K V).maxsize_bytes = some m from hm)
      (by omega) (by show (0 : Int) ≤ m; omega)

/-- Claim C2, witness: a mixed run of nine operations (insertions, a delete,
a pop, a popitem, a clear) under caps `maxlen = 2`, `maxsize_bytes = 10`
with id costs stays accounted and within the byte cap. -/
theorem claim2_witness :
    Accounted id id (runOps id id (emptyDict (some 2) (some 10)) opsW) ∧
    (runOps id id (emptyDict (some 2) (some 10)) opsW).current_size ≤ 10 := by
  have h := claim2 id id (some 2) (some 10) opsW
  refine ⟨h.1, h.2 10 rfl (by decide) ?_⟩
  intro k v hkv
  simp only [opsW, List.mem_cons, List.not_mem_nil, or_false] at hkv
  rcases hkv with h1 | h1 | h1 | h1 | h1 | h1 | h1 | h1 | h1 <;>
    first
      | (injection h1 with hk hv2; subst hk; subst hv2; decide)
      | cases h1

/-- Claim C3: with only a count cap `maxlen = N ≥ 1`, inserting any list of
pairwise-distinct keys leaves exactly the `N` most recently inserted pairs,
oldest first (the `(length - N)`-prefix is dropped); every prefix of length
at least `N` leaves the dict full; and each of the first `length - N` keys
is absent at the end. -/
theorem claim3 (cK : K → Nat) (cV : V → Nat) (N : Nat) (hN : 1 ≤ N)
    (ps : List (K × V)) (hnd : (ps.map Prod.fst).Nodup) :
    (insertAll cK cV (emptyDict (some (N : Int)) none) ps).entries =
        ps.drop (ps.length - N) ∧
    (∀ n : Nat, N ≤ n → n ≤ ps.length →
      is_full (insertAll cK cV (emptyDict (some (N : Int)) none)
        (ps.take n)) = .ok true) ∧
    (∀ p ∈ ps.take (ps.length - N),
      lookupKey p.1
        (insertAll cK cV (emptyDict (some (N : Int)) none) ps).entries =
          none) := by
  have h1 : (insertAll cK cV (emptyDict (some (N : Int)) none) ps).entries =
      ps.drop (ps.length - N) := by
    have := insertAll_entries_drop cK cV N hN ps
      (emptyDict (some (N : Int)) none) rfl rfl (fun p hp => rfl) hnd
      (by simp [emptyDict])
    simpa [emptyDict] using this
  refine ⟨h1, ?_, ?_⟩
  · intro n hNn hnps
    have hndn : ((ps.take n).map Prod.fst).Nodup := by
      refine List.Nodup.sublist ?_ hnd
      exact List.Sublist.map Prod.fst (List.take_sublist n ps)
    have hdrop := insertAll_entries_drop cK cV N hN (ps.take n)
      (emptyDict (some (N : Int)) none) rfl rfl (fun p hp => rfl) hndn
      (by simp [emptyDict])
    have hfields := insertAll_fields cK cV (ps.take n)
      (emptyDict (some (N : Int)) none : CircularDict K V)
    refine is_full_of_maxlen _ (N : Int) hfields.2 hfields.1 ?_
    rw [hdrop]
    simp only [emptyDict, List.nil_append, List.length_drop, List.length_take,
      List.length_nil]
    have : min n ps.length = n := by omega
    rw [this]
    have : n - (0 + n - N) = N := by omega
    rw [this]
  · intro p hp
    rw [h1, lookupKey_eq_none_iff]
    intro q hq heq
    have hnd2 : ((ps.take (ps.length - N)).map Prod.fst ++
        (ps.drop (ps.length - N)).map Prod.fst).Nodup := by
      rw [← List.map_append, List.take_append_drop]
      exact hnd
    have hdisj := (List.nodup_append.mp hnd2).2.2
    exact hdisj (List.mem_map_of_mem Prod.fst hp)
      (heq ▸ List.mem_map_of_mem Prod.fst hq)

/-- Claim C3, witness (the spec's concrete scenario): `maxlen = 5`, keys
0..7 inserted in order leave exactly `(3,3),(4,4),(5,5),(6,6),(7,7)` in that
order, the dict is full after all 8 insertions, and key 0 is absent. -/
theorem claim3_witness :
    (insertAll id id (emptyDict (some ((5 : Nat) : Int)) none) psW).entries =
        [(3, 3), (4, 4), (5, 5), (6, 6), (7, 7)] ∧
    is_full (insertAll id id (emptyDict (some ((5 : Nat) : Int)) none)
        (psW.take 8)) = .ok true ∧
    lookupKey 0 (insertAll id id
        (emptyDict (some ((5 : Nat) : Int)) none) psW).entries = none := by
  have h := claim3 id id 5 (by decide) psW (by decide)
  exact ⟨h.1.trans (by decide), h.2.1 8 (by decide) (by decide),
    h.2.2 (0, 0) (by decide)⟩

/-- Claim C6, counterexample: when the count strictly exceeds `maxlen`, the
eviction loop does NOT evict down to the cap — the `assert len(self) ==
self.maxlen` inside the loop body fails, so `__setitem__` raises
`AssertionError` and keeps both resident entries (`exDict6a` has 2 entries,
`maxlen = 1`). -/
theorem claim6_counterexample :
    setItem id id exDict6a 2 2 = (exDict6a, .error .assertionError) ∧
    exDict6a.entries.length = 2 := ⟨rfl, rfl⟩

/-- Claim C6, amended: the count-cap loop condition is `≥`, and when the
count equals `maxlen` the single oldest entry is evicted; but when the count
strictly exceeds `maxlen`, the in-loop `assert len(self) == self.maxlen`
fails with an invariant violation, leaving the state unchanged, instead of
evicting down to the cap. -/
theorem claim6_amended (cK : K → Nat) (cV : V → Nat) (d : CircularDict K V)
    (k : K) (v : V) (ml : Int) (hms : d.maxsize_bytes = none)
    (hml : d.maxlen = some ml) (hlk : lookupKey k d.entries = none) :
    (ml < (d.entries.length : Int) →
      setItem cK cV d k v = (d, .error .assertionError)) ∧
    (∀ (q : K × V) (t : List (K × V)), d.entries = q :: t →
      ((q :: t).length : Int) = ml →
      setItem cK cV d k v =
        ({ d with entries := t ++ [(k, v)],
                  current_size := d.current_size - cost cK cV q +
                    ((cK k : Int) + (cV v : Int)) }, .ok ())) := by
  constructor
  · intro hover
    exact setItem_fresh_over_cap cK cV d k v ml hms hml hlk hover
  · intro q t he hcap
    exact setItem_fresh_at_cap cK cV d k v ml q t hms hml hlk he hcap

/-- Claim C6 amended, witness: on `exDict6a` (2 entries, cap 1) insertion of
a fresh key raises `AssertionError` with the state unchanged; on `exDict6b`
(1 entry, cap 1) insertion of a fresh key evicts the oldest entry and
succeeds. -/
theorem claim6_witness :
    setItem id id exDict6a 3 3 = (exDict6a, .error .assertionError) ∧
    (setItem id id exDict6b 1 1).1.entries = [(1, 1)] ∧
    (setItem id id exDict6b 1 1).2 = .ok () := by
  have ha := claim6_amended id id exDict6a 3 3 1 rfl rfl (by decide)
  have hb := claim6_amended id id exDict6b 1 1 1 rfl rfl (by decide)
  refine ⟨ha.1 (by decide), ?_, ?_⟩
  · rw [hb.2 (0, 0) [] rfl (by decide)]
    rfl
  · rw [hb.2 (0, 0) [] rfl (by decide)]

/-- Claim C7, counterexample: re-inserting the resident key 0 with a larger
value is NOT guaranteed to leave the entry count unchanged with no other
entry evicted: on `exDict7` (entries `(0,4),(1,4)`, byte cap 10, key cost
0 and value cost = value) the update `d[0] = 8` triggers the byte-cap loop,
evicting the unrelated key 1 and shrinking the count from 2 to 1. -/
theorem claim7_counterexample :
    ((setItem (fun _ : Nat => 0) (fun n : Nat => n) exDict7 0 8).1).entries =
        [(0, 8)] ∧
    exDict7.entries.length = 2 ∧
    lookupKey 1 ((setItem (fun _ : Nat => 0) (fun n : Nat => n)
        exDict7 0 8).1).entries = none := ⟨rfl, rfl, rfl⟩

/-- Claim C7, amended: re-inserting a resident key moves it to the newest
position (other entries keep their order), keeps the entry count unchanged,
and changes `current_size` by exactly the new cost minus the old accounted
cost — provided the accounting invariant holds, the updated entry still fits
under the byte cap alongside the remaining entries, and the count is within
`maxlen`; otherwise the eviction loops may evict other entries. -/
theorem claim7_amended (cK : K → Nat) (cV : V → Nat) (d : CircularDict K V)
    (k : K) (v oldv : V) (hv : lookupKey k d.entries = some oldv)
    (hsum : d.current_size = sizeSum cK cV d.entries)
    (hfit : ∀ m : Int, d.maxsize_bytes = some m →
      d.current_size - ((cK k : Int) + (cV oldv : Int)) +
        ((cK k : Int) + (cV v : Int)) ≤ m)
    (hlen : ∀ ml : Int, d.maxlen = some ml → (d.entries.length : Int) ≤ ml) :
    setItem cK cV d k v =
      ({ d with entries := removeKey k d.entries ++ [(k, v)],
                current_size := d.current_size -
                  ((cK k : Int) + (cV oldv : Int)) +
                  ((cK k : Int) + (cV v : Int)) }, .ok ()) ∧
    (removeKey k d.entries ++ [(k, v)]).length = d.entries.length := by
  constructor
  · exact setItem_update cK cV d k v oldv hv hsum hfit hlen
  · have := length_removeKey k oldv d.entries hv
    simp only [List.length_append, List.length_cons, List.length_nil]
    omega

/-- Claim C7 amended, witness: on `exDict7w` (entries `(1,3),(2,4)`, id
costs, size 10, caps 5 and 100) the update `d[1] = 5` moves key 1 to the
newest position with key 2 untouched, keeps the count at 2, and adjusts the
size by the cost delta 6 − 4 = 2. -/
theorem claim7_witness :
    setItem id id exDict7w 1 5 =
      ({ exDict7w with entries := removeKey 1 exDict7w.entries ++ [(1, 5)],
                       current_size := exDict7w.current_size -
                         (((id 1 : Nat) : Int) + ((id 3 : Nat) : Int)) +
                         (((id 1 : Nat) : Int) + ((id 5 : Nat) : Int)) },
       .ok ()) ∧
    (removeKey 1 exDict7w.entries ++ [(1, 5)]).length =
      exDict7w.entries.length := by
  have h := claim7_amended id id exDict7w 1 5 3 (by decide) (by decide)
    (by
      intro m hm
      injection hm with h2
      subst h2
      decide)
    (by
      intro ml hml
      injection hml with h2
      subst h2
      decide)
  exact h

/-- Claim C8: the byte-cap eviction loop of `__setitem__` (evict oldest
while `current_size + item_size > maxsize_bytes`) terminates after finitely
many evictions of oldest entries (the final entry list is a suffix,
`drop n`, of the initial one) and, when the accounting invariant holds and
the item alone fits, ends without error in a state where the item fits. -/
theorem claim8 (cK : K → Nat) (cV : V → Nat) (m : Int) (k : K) (v : V)
    (es : List (K × V)) (cs : Int) (hsum : cs = sizeSum cK cV es)
    (hfit : (cK k : Int) + (cV v : Int) ≤ m) :
    ∃ (es2 : List (K × V)) (cs2 : Int) (n : Nat),
      evictBytesLoop cK cV m ((cK k : Int) + (cV v : Int)) es cs =
          ((es2, cs2), .ok ()) ∧
        cs2 + ((cK k : Int) + (cV v : Int)) ≤ m ∧ es2 = es.drop n :=
  evictBytesLoop_fits cK cV m ((cK k : Int) + (cV v : Int)) es cs hsum hfit

/-- Claim C8, witness: with id costs, cap 10 and item cost 8, the loop run
on three entries of total cost 12 terminates with `ok`, a fitting state, and
a suffix of the original entries. -/
theorem claim8_witness :
    ∃ (es2 : List (Nat × Nat)) (cs2 : Int) (n : Nat),
      evictBytesLoop id id 10 (((4 : Nat) : Int) + ((4 : Nat) : Int))
          [(1, 1), (2, 2), (3, 3)] 12 = ((es2, cs2), .ok ()) ∧
        cs2 + (((4 : Nat) : Int) + ((4 : Nat) : Int)) ≤ 10 ∧
        es2 = [(1, 1), (2, 2), (3, 3)].drop n :=
  claim8 id id 10 4 4 [(1, 1), (2, 2), (3, 3)] 12 (by decide) (by decide)

/-- Claim C9: `pop(key, default)` returns the default, with the state
unchanged, when the key is absent and a default is supplied; raises
`KeyError`, with the state unchanged, when the key is absent and the default
is `None`; and when the key is resident, removes the entry with exactly the
accounting of `__delitem__` and returns its value. -/
theorem claim9 (cK : K → Nat) (cV : V → Nat) (d : CircularDict K V) (k : K) :
    (lookupKey k d.entries = none →
      popB cK cV d k none = (d, .error .keyError)) ∧
    (∀ dv : V, lookupKey k d.entries = none →
      popB cK cV d k (some dv) = (d, .ok dv)) ∧
    (∀ (v : V) (dflt : Option V), lookupKey k d.entries = some v →
      popB cK cV d k dflt = (delItem cK cV d k, .ok v)) := by
  refine ⟨?_, ?_, ?_⟩
  · intro h
    exact popB_of_absent_none cK cV d k h
  · intro dv h
    exact popB_of_absent_some cK cV d k dv h
  · intro v dflt hv
    rw [popB_of_present cK cV d k v dflt hv,
      delItem_of_lookup_some cK cV d k v hv]

/-- Claim C9, witness on `exDict9` (single entry `(2, 9)`): popping the
absent key 1 with no default raises `KeyError` leaving the state unchanged;
with default 7 it returns 7 unchanged; popping the resident key 2 removes it
with delete's accounting and returns 9. -/
theorem claim9_witness :
    popB id id exDict9 1 none = (exDict9, .error .keyError) ∧
    popB id id exDict9 1 (some 7) = (exDict9, .ok 7) ∧
    popB id id exDict9 2 none = (delItem id id exDict9 2, .ok 9) := by
  have h1 := claim9 id id exDict9 1
  have h2 := claim9 id id exDict9 2
  exact ⟨h1.1 (by decide), h1.2.1 7 (by decide), h2.2.2 9 none (by decide)⟩

/-- Claim C10: the two runtime variants the code compensates for — the
inherited removal invoking the overridden `__delitem__` (`popA`,
`popitemA`), which already decremented `current_size` so the check skips the
manual decrement, and the variant that does not (`popB`, `popitemB`), where
the manual decrement runs — produce identical results in all cases, and on a
resident key `pop` decrements `current_size` exactly once by the entry's
cost. -/
theorem claim10 (cK : K → Nat) (cV : V → Nat) (d : CircularDict K V) (k : K)
    (dflt : Option V) (last : Bool) :
    popA cK cV d k dflt = popB cK cV d k dflt ∧
    popitemA cK cV d last = popitemB cK cV d last ∧
    (∀ v : V, lookupKey k d.entries = some v →
      ((popA cK cV d k dflt).1).current_size =
        d.current_size - ((cK k : Int) + (cV v : Int))) := by
  refine ⟨popA_eq_popB cK cV d k dflt, popitemA_eq_popitemB cK cV d last, ?_⟩
  intro v hv
  rw [popA_eq_popB cK cV d k dflt, popB_of_present cK cV d k v dflt hv]

/-- Claim C10, witness on `exDict10` (single entry `(3, 4)`, size 7): both
pop variants agree, both popitem variants agree, and popping key 3
decrements the size by 3 + 4 = 7, exactly once. -/
theorem claim10_witness :
    popA id id exDict10 3 none = popB id id exDict10 3 none ∧
    popitemA id id exDict10 true = popitemB id id exDict10 true ∧
    ((popA id id exDict10 3 none).1).current_size = 0 := by
  have h := claim10 id id exDict10 3 none true
  exact ⟨h.1, h.2.1, (h.2.2 4 (by decide)).trans (by decide)⟩

end CircularDictModel
